import Mathlib

/-!
Verification of the open_data_scanner repository.

This file gives a shallow embedding, in Lean 4, of the parts of the
repository relevant to the frozen claims: the calendar arithmetic of
`helper_functions.date_ago`, the maintainer-name inference of
`helper_functions.infer_name_from_email`, and the `Inventory` methods
`add_dataset`, `add_resource`, `infer_modified`, `get_up_to_date`,
`get_spec`, `get_open_formats`, `_collect_dataset_with_resources` and
`inventory` from `inventories.py`, together with theorems settling each
claim.

Conventions of the embedding:
* Python exceptions are modelled by `Except PyErr`; a function that can
  raise returns `Except PyErr α`.
* Python `datetime` values are modelled by `PyDateTime`: a proleptic
  Gregorian calendar date (`CalDate`) plus the time of day as a rational
  fraction of a day.  `timedelta` arithmetic goes through the day number
  (`toRD` / `fromRD`, Rata Die: 0001-01-01 is day 1); `timedelta`'s
  microsecond quantisation of fractional day counts is modelled by exact
  rational arithmetic.
* Python `float` values reaching `date_ago` are modelled by `ℚ` with
  exact arithmetic (`30.43` is `3043/100`); `round` is Python's
  round-half-to-even.
* pandas tables are modelled by lists of records; a `NaN` / missing cell
  is an `Option.none`.
-/

namespace OpenDataScanner

/-- Decidable equality for `Except`, so that concrete runs of the
embedded fallible functions can be checked by `decide`. -/
instance {ε α : Type} [DecidableEq ε] [DecidableEq α] : DecidableEq (Except ε α)
  | .ok a, .ok b =>
      if h : a = b then .isTrue (by rw [h]) else .isFalse (by simp [h])
  | .ok _, .error _ => .isFalse (by simp)
  | .error _, .ok _ => .isFalse (by simp)
  | .error e1, .error e2 =>
      if h : e1 = e2 then .isTrue (by rw [h]) else .isFalse (by simp [h])

/-- Python exception kinds that the embedded code can raise. -/
inductive PyErr
  | keyError
  | valueError
  | overflowError
  deriving DecidableEq, Repr

/-! ## Calendar dates (embedding of `datetime.date` / `datetime.datetime`) -/

/-- A proleptic Gregorian calendar date, as carried by a Python
`datetime`.  Python guarantees `1 <= year <= 9999`, `1 <= month <= 12`
and `1 <= day <= monthLen year month`; the `replace` model below
revalidates these bounds exactly as `datetime.replace` does. -/
structure CalDate where
  year : Int
  month : Nat
  day : Nat
  deriving DecidableEq, Repr

/-- Embedding of `calendar.isleap` (also the leap rule used by
`datetime`): divisible by 4 and (not by 100 or by 400). -/
def isLeap (y : Int) : Bool :=
  y % 4 == 0 && (y % 100 != 0 || y % 400 == 0)

/-- Number of days of month `m` of year `y`, as returned in the second
component of `calendar.monthrange(y, m)`.  Only ever applied to
`1 ≤ m ≤ 12` by the embedded code (as in the source); other months get
the dummy value 31. -/
def monthLen (y : Int) (m : Nat) : Nat :=
  if m = 2 then (if isLeap y then 29 else 28)
  else if m = 4 ∨ m = 6 ∨ m = 9 ∨ m = 11 then 30
  else 31

/-- Days since 1970-01-01 of a civil date (standard `days_from_civil`
computation for the proleptic Gregorian calendar). -/
def daysFromCivil (d : CalDate) : Int :=
  let y : Int := if d.month ≤ 2 then d.year - 1 else d.year
  let era : Int := y.fdiv 400
  let yoe : Int := y - era * 400
  let mp : Int := if 2 < d.month then (d.month : Int) - 3 else (d.month : Int) + 9
  let doy : Int := (153 * mp + 2).fdiv 5 + (d.day : Int) - 1
  let doe : Int := yoe * 365 + yoe.fdiv 4 - yoe.fdiv 100 + doy
  era * 146097 + doe - 719468

/-- Rata Die day number of a date: 0001-01-01 is day 1,
1970-01-01 is day 719163. -/
def toRD (d : CalDate) : Int := daysFromCivil d + 719163

/-- Inverse of `daysFromCivil` (standard `civil_from_days`). -/
def civilFromDays (z0 : Int) : CalDate :=
  let z := z0 + 719468
  let era := z.fdiv 146097
  let doe := z - era * 146097
  let yoe := (doe - doe.fdiv 1460 + doe.fdiv 36524 - doe.fdiv 146096).fdiv 365
  let y := yoe + era * 400
  let doy := doe - (365 * yoe + yoe.fdiv 4 - yoe.fdiv 100)
  let mp := (5 * doy + 2).fdiv 153
  let d := doy - (153 * mp + 2).fdiv 5 + 1
  let m := mp + (if mp < 10 then 3 else -9)
  { year := if m ≤ 2 then y + 1 else y, month := m.toNat, day := d.toNat }

/-- Date of a Rata Die day number. -/
def fromRD (rd : Int) : CalDate := civilFromDays (rd - 719163)

/-- Rata Die number of `datetime.max`'s date, 9999-12-31; `datetime`
arithmetic raises `OverflowError` outside `[0001-01-01, 9999-12-31]`. -/
def rdMaxDay : Int := toRD { year := 9999, month := 12, day := 31 }

/-- Embedding of a Python `datetime`: a calendar date plus the time of
day as a fraction of a day (`0 ≤ frac < 1` for values Python builds). -/
structure PyDateTime where
  date : CalDate
  frac : ℚ
  deriving DecidableEq, Repr

/-- `datetime.replace(year=y)`: revalidates the full date against the
new year (e.g. Feb 29 moved to a non-leap year raises `ValueError`, as
does a year outside `1..9999`). -/
def replaceYearDT (f : PyDateTime) (y : Int) : Except PyErr PyDateTime :=
  if y < 1 || 9999 < y || f.date.month < 1 || 12 < f.date.month
      || f.date.day < 1 || monthLen y f.date.month < f.date.day then
    .error .valueError
  else
    .ok { f with date := { f.date with year := y } }

/-- `datetime.replace(month=m)`: revalidates the full date against the
new month; in particular it raises `ValueError` when the current day of
month is beyond the new month's length. -/
def replaceMonthDT (f : PyDateTime) (m : Nat) : Except PyErr PyDateTime :=
  if f.date.year < 1 || 9999 < f.date.year || m < 1 || 12 < m
      || f.date.day < 1 || monthLen f.date.year m < f.date.day then
    .error .valueError
  else
    .ok { f with date := { f.date with month := m } }

/-- Python's `round(p / q)` for `q > 0`, on the exact rational value
`p / q`: round half to even.  (Python rounds the corresponding float;
the embedding computes the exact rational result.) -/
def roundHalfEven (p q : Int) : Int :=
  let f := p.fdiv q
  let r := p - f * q
  if 2 * r < q then f
  else if q < 2 * r then f + 1
  else if f % 2 = 0 then f else f + 1

/-- `from_ - datetime.timedelta(days=q)`: subtraction through the day
number; raises `OverflowError` outside the `datetime` range. -/
def subDaysDT (f : PyDateTime) (q : ℚ) : Except PyErr PyDateTime :=
  -- total = toRD f.date + f.frac - q, computed on a common denominator
  let den : Nat := f.frac.den * q.den
  let num : Int :=
    toRD f.date * (den : Int) + f.frac.num * (q.den : Int) - q.num * (f.frac.den : Int)
  let z : Int := num.fdiv (den : Int)      -- ⌊total⌋
  if z < 1 || rdMaxDay < z then .error .overflowError
  else .ok { date := fromRD z, frac := mkRat (num - z * (den : Int)) den }

/-! ## `helper_functions.date_ago` -/

/-- The integer branch of the `'month'` case of `date_ago`
(`helper_functions.py` lines 46-62), for `n = int(n) >= 0`:

* `n_from_jan = int(n) - date.month + 1`; if positive, the year is
  moved back by `(n_from_jan - 1) // 12 + 1`  via `date.replace(year=...)`;
* the target month is `int(from_.month - n) % 12`, with `0` mapped to
  December;
* line 61 of the source reads `date.replace(day=day_max)` *without
  assigning the result*, so the intended day-of-month clamp has no
  effect (the line cannot itself raise, since it only runs when
  `from_.day > day_max` and then `day_max` is a valid day of the current
  month); consequently the final `date.replace(month=month)` raises
  `ValueError` whenever `from_.day` exceeds the target month's length. -/
def monthsAgoInt (n : Int) (f : PyDateTime) : Except PyErr PyDateTime := do
  let nFromJan : Int := n - (f.date.month : Int) + 1
  let date1 ←
    if 0 < nFromJan then
      let nYears : Int := (nFromJan - 1).fdiv 12 + 1
      replaceYearDT f (f.date.year - nYears)
    else
      pure f
  let m0 : Int := ((f.date.month : Int) - n).emod 12
  let month : Nat := if m0 = 0 then 12 else m0.toNat
  replaceMonthDT date1 month

/-- Embedding of `helper_functions.date_ago(n, unit, from_)`
(`helper_functions.py` lines 27-76).  `n` is the Python float argument,
modelled as an exact rational; `date_ago` raises `ValueError` for
negative `n` and for an unknown unit.  The recursive calls of the
source (`date_ago(int(n), 'month', from_)` in the fractional-month
branch and `date_ago(round(n*12), 'month', from_)` in the `'year'`
branch) always land in the integer-month branch, embedded here as
`monthsAgoInt`. -/
def dateAgo (n : ℚ) (unit : String) (f : PyDateTime) : Except PyErr PyDateTime :=
  if n < 0 then .error .valueError
  else if unit = "day" then subDaysDT f n
  else if unit = "week" then
    -- timedelta(weeks=n) is 7 * n days
    subDaysDT f (mkRat (7 * n.num) n.den)
  else if unit = "month" then
    if n.den = 1 then
      monthsAgoInt n.num f
    else
      -- decimals = n % 1 = (n.num - ⌊n⌋ * n.den) / n.den  (n ≥ 0 here);
      -- decimals_in_days = round(30.43 * decimals)
      --                  = round((3043 * (n.num - ⌊n⌋ * n.den)) / (100 * n.den))
      let decimalsInDays : Int :=
        roundHalfEven (3043 * (n.num - n.floor * (n.den : Int))) (100 * (n.den : Int))
      match monthsAgoInt n.floor f with
      | .error e => .error e
      | .ok base => subDaysDT base (mkRat decimalsInDays 1)
  else if unit = "year" then
    -- n_in_months = round(n * 12) = round((12 * n.num) / n.den)
    monthsAgoInt (roundHalfEven (12 * n.num) (n.den : Int)) f
  else .error .valueError

example : toRD { year := 1970, month := 1, day := 1 } = 719163 := by decide

example : fromRD 719163 = { year := 1970, month := 1, day := 1 } := by decide

example : fromRD (toRD { year := 2024, month := 3, day := 1 }) =
    { year := 2024, month := 3, day := 1 } := by decide

example : dateAgo 1 "month" ⟨⟨2024, 6, 15⟩, 0⟩ = .ok ⟨⟨2024, 5, 15⟩, 0⟩ := by decide

example : dateAgo 5 "month" ⟨⟨2024, 5, 15⟩, 0⟩ = .ok ⟨⟨2023, 12, 15⟩, 0⟩ := by decide

example : dateAgo 1 "day" ⟨⟨2024, 3, 1⟩, 0⟩ = .ok ⟨⟨2024, 2, 29⟩, 0⟩ := by decide

example : dateAgo 2 "week" ⟨⟨2024, 1, 10⟩, 0⟩ = .ok ⟨⟨2023, 12, 27⟩, 0⟩ := by decide

example : dateAgo 1 "year" ⟨⟨2024, 2, 15⟩, 0⟩ = .ok ⟨⟨2023, 2, 15⟩, 0⟩ := by decide

example : dateAgo 1 "month" ⟨⟨2024, 3, 31⟩, 0⟩ = .error .valueError := by decide

/-! ## datetime comparison -/

/-- Python `datetime` order `a <= b`: lexicographic on
(year, month, day, time of day). -/
def dtLeB (a b : PyDateTime) : Bool :=
  if a.date.year ≠ b.date.year then a.date.year < b.date.year
  else if a.date.month ≠ b.date.month then a.date.month < b.date.month
  else if a.date.day ≠ b.date.day then a.date.day < b.date.day
  else a.frac ≤ b.frac

/-! ## `Inventory.get_up_to_date` (`inventories.py` lines 198-227) -/

/-- A cell of the `frequency` column: either a Python `str`, or any
non-string value (`None`, `NaN`, a number, ...), which fails the
`isinstance(frequency, str)` test of the source. -/
inductive PyCell
  | str (s : String)
  | nonStr
  deriving DecidableEq, Repr

/-- The fields of a datasets-table row read by `get_up_to_date`:
`ds.harvested`, `ds.frequency` and `ds.modified`.  The source stores
`ds.modified` as an ISO string and re-parses it with
`datetime.fromisoformat`; the row model carries the parsed value. -/
structure UpRow where
  harvested : Bool
  frequency : PyCell
  modified : PyDateTime
  deriving DecidableEq, Repr

/-- The `full_unit` dict of `get_up_to_date`:
`{'D': 'day', 'W': 'week', 'M': 'month', 'Y': 'year'}`; `none` models
the `KeyError` raised by `full_unit[c]` for any other key. -/
def fullUnitMap (c : Char) : Option String :=
  if c = 'D' then some "day"
  else if c = 'W' then some "week"
  else if c = 'M' then some "month"
  else if c = 'Y' then some "year"
  else none

/-- Leading decimal digits of a char list, with accumulator:
returns ((value, digit count), rest). -/
def takeDigits (l : List Char) (v k : Nat) : (Nat × Nat) × List Char :=
  match l with
  | [] => ((v, k), [])
  | c :: t =>
      if c.isDigit then takeDigits t (v * 10 + (c.toNat - 48)) (k + 1)
      else ((v, k), c :: t)

/-- Python `float(s)` on simple decimal literals: optional sign, digits
with at most one decimal point (`'1'`, `'0.5'`, `'.5'`, `'2.'`, ...).
`none` models the `ValueError` raised on anything unparsable.
(Exponents, `inf`/`nan` and surrounding whitespace, which Python's
`float` also accepts, are outside the modelled grammar; no claim
depends on them.)  The value is exact: the claims never depend on
float representation error. -/
def pyFloat (s : String) : Option ℚ :=
  let l := s.toList
  let (sgn, l1) : Int × List Char :=
    match l with
    | '+' :: t => (1, t)
    | '-' :: t => (-1, t)
    | t => (1, t)
  let ((i, ki), rest) := takeDigits l1 0 0
  match rest with
  | [] => if ki = 0 then none else some (mkRat (sgn * (i : Int)) 1)
  | '.' :: t =>
      let ((fr, kf), rest2) := takeDigits t 0 0
      if rest2.isEmpty && !(ki = 0 && kf = 0) then
        some (mkRat (sgn * ((i * 10 ^ kf + fr : Nat) : Int)) (10 ^ kf))
      else none
  | _ => none

/-- Python `s.startswith(pre)`, computed on the character lists. -/
def startsWithB (s pre : String) : Bool := pre.toList.isPrefixOf s.toList

/-- The last character `s[-1]` of a nonempty string (dummy `' '` for the
empty string, which the callers never pass). -/
def lastChar (s : String) : Char := s.toList.getLastD ' '

/-- The slice `s[1:-1]` of a Python string. -/
def midStr (s : String) : String := .mk ((s.toList.drop 1).dropLast)

/-- Embedding of the static method `Inventory.get_up_to_date(ds, now)`
(`inventories.py` lines 198-227):

* a harvested dataset is unconditionally up to date;
* a non-string frequency, a frequency not starting with `'P'`, and the
  sentinel `'PT1S'` mean "no update explicitly planned" → `True`;
* otherwise `full_unit[frequency[-1]]` is looked up (raising `KeyError`
  on an unknown unit letter), `float(frequency[1:-1])` is parsed
  (raising `ValueError` when unparsable), `oldest_valid_update =
  date_ago(n, unit, from_=now)` is computed (propagating its
  exceptions), and the result is `modified >= oldest_valid_update`. -/
def getUpToDate (ds : UpRow) (now : PyDateTime) : Except PyErr Bool :=
  if ds.harvested then .ok true
  else
    match ds.frequency with
    | .nonStr => .ok true
    | .str frequency =>
        if startsWithB frequency "P" && frequency != "PT1S" then
          match fullUnitMap (lastChar frequency) with
          | none => .error .keyError
          | some unit =>
              match pyFloat (midStr frequency) with
              | none => .error .valueError
              | some n =>
                  match dateAgo n unit now with
                  | .error e => .error e
                  | .ok oldest => .ok (dtLeB oldest ds.modified)
        else .ok true

example : pyFloat "1" = some 1 := by decide

example : pyFloat "0.5" = some (mkRat 1 2) := by decide

example : pyFloat "" = none := by decide

example : pyFloat "x2" = none := by decide

example :
    getUpToDate { harvested := false, frequency := .str "P1D",
                  modified := ⟨⟨2024, 6, 14⟩, 0⟩ } ⟨⟨2024, 6, 15⟩, 0⟩ = .ok true := by
  decide

example :
    getUpToDate { harvested := false, frequency := .str "P1D",
                  modified := ⟨⟨2024, 6, 13⟩, 0⟩ } ⟨⟨2024, 6, 15⟩, 0⟩ = .ok false := by
  decide

example :
    getUpToDate { harvested := false, frequency := .str "PT1S",
                  modified := ⟨⟨2000, 1, 1⟩, 0⟩ } ⟨⟨2024, 6, 15⟩, 0⟩ = .ok true := by
  decide

example :
    getUpToDate { harvested := false, frequency := .str "P1X",
                  modified := ⟨⟨2024, 6, 15⟩, 0⟩ } ⟨⟨2024, 6, 15⟩, 0⟩ =
      .error .keyError := by
  decide

/-! ## Claims C1, C2, C3 -/

/-- C1: the claim states that `date_ago(n, 'month', from_)` clamps the
day-of-month to the target month's length instead of raising.  It fails
on the code: line 61 of `helper_functions.py` reads
`date.replace(day=day_max)` without assigning the result, so the clamp
is a no-op and the final `date.replace(month=month)` raises
`ValueError` whenever the starting day exceeds the target month's
length.  Concretely: (1) one month before 2024-03-31 raises instead of
giving the clamped 2024-02-29; (2) one month before 2024-01-31 is
2023-12-31 (December of the previous year — the claim's own example
"January 31 minus 1 month yields February 28/29" does not match the
month walked to); (3) eleven months before 2024-01-31, which does land
in February, raises instead of clamping to 2023-02-28. -/
theorem date_ago_clamp_noop_raises :
    dateAgo 1 "month" ⟨⟨2024, 3, 31⟩, 0⟩ = .error .valueError
    ∧ dateAgo 1 "month" ⟨⟨2024, 1, 31⟩, 0⟩ = .ok ⟨⟨2023, 12, 31⟩, 0⟩
    ∧ dateAgo 11 "month" ⟨⟨2024, 1, 31⟩, 0⟩ = .error .valueError := by
  decide

/-- C2 counterexample: for the valid duration token `P1M` the claim
requires a Boolean answer (`True` iff `modified >= now - 1 month`) for
*every* starting date; with `now = 2024-03-31` the code instead
propagates the `ValueError` of `date_ago` (the day-clamp bug of C1),
returning neither `True` nor `False` — here `modified = 2024-03-30`
is on/after any sensible `oldest_valid`, so the claim would require
`True`. -/
theorem get_up_to_date_raises_on_P1M_march31 :
    getUpToDate { harvested := false, frequency := .str "P1M",
                  modified := ⟨⟨2024, 3, 30⟩, 0⟩ } ⟨⟨2024, 3, 31⟩, 0⟩ =
      .error .valueError := by
  decide

/-- C2 (amended): whenever the calendar arithmetic itself succeeds, the
claim holds: a harvested row is unconditionally up to date, and for a
non-harvested row whose frequency is a parseable duration token
`P<n><unit>` (`unit ∈ {D, W, M, Y}`), `get_up_to_date` returns `False`
iff the modified date is strictly before `oldest_valid =
date_ago(n, unit, now)`, i.e. `True` iff `modified >= oldest_valid`.
(When `date_ago` raises — the C1 bug — the exception propagates, see
the counterexample.) -/
theorem get_up_to_date_iff_modified_ge_oldest (ds : UpRow) (now : PyDateTime) :
    (ds.harvested = true → getUpToDate ds now = .ok true)
    ∧ (∀ (s : String) (n : ℚ) (unit : String) (oldest : PyDateTime),
        ds.harvested = false →
        ds.frequency = .str s →
        startsWithB s "P" = true →
        s ≠ "PT1S" →
        fullUnitMap (lastChar s) = some unit →
        pyFloat (midStr s) = some n →
        dateAgo n unit now = .ok oldest →
        (getUpToDate ds now = .ok false ↔ dtLeB oldest ds.modified = false)
        ∧ (getUpToDate ds now = .ok true ↔ dtLeB oldest ds.modified = true)) := by
  constructor
  · intro h
    simp [getUpToDate, h]
  · intro s n unit oldest hh hf hp hne hu hn hd
    have hb : (s != "PT1S") = true := by
      simpa [bne_iff_ne] using hne
    have hgu : getUpToDate ds now = .ok (dtLeB oldest ds.modified) := by
      simp [getUpToDate, hh, hf, hp, hb, hu, hn, hd]
    rw [hgu]
    cases h : dtLeB oldest ds.modified <;> simp

/-- C2 witness: a concrete non-harvested row with frequency `P2M`,
`now = 2024-06-15` and `modified = 2024-05-01 >= 2024-04-15 =
oldest_valid`, evaluated through the amended theorem. -/
theorem get_up_to_date_iff_modified_ge_oldest_witness :
    getUpToDate { harvested := false, frequency := .str "P2M",
                  modified := ⟨⟨2024, 5, 1⟩, 0⟩ } ⟨⟨2024, 6, 15⟩, 0⟩ = .ok true :=
  ((get_up_to_date_iff_modified_ge_oldest
      { harvested := false, frequency := .str "P2M", modified := ⟨⟨2024, 5, 1⟩, 0⟩ }
      ⟨⟨2024, 6, 15⟩, 0⟩).2
    "P2M" 2 "month" ⟨⟨2024, 4, 15⟩, 0⟩ rfl rfl (by decide) (by decide) (by decide)
    (by decide) (by decide)).2.mpr (by decide)

/-- C3: the claim states that every non-harvested row with an
unparseable frequency yields `True` without raising.  It holds for
non-strings, for strings not starting with `'P'` and for the sentinel
`'PT1S'`, but fails on the code for strings that start with `'P'` and
do not end in a known unit letter: `full_unit[frequency[-1]]` raises
`KeyError` for the claim's own example `'P1X'` (and
`float(frequency[1:-1])` raises `ValueError` for e.g. `'PxD'`),
contradicting the documented degrade-to-current fallback. -/
theorem get_up_to_date_malformed_frequency :
    getUpToDate { harvested := false, frequency := .str "P1X",
                  modified := ⟨⟨2000, 1, 1⟩, 0⟩ } ⟨⟨2024, 6, 15⟩, 0⟩ =
      .error .keyError
    ∧ getUpToDate { harvested := false, frequency := .str "PxD",
                    modified := ⟨⟨2000, 1, 1⟩, 0⟩ } ⟨⟨2024, 6, 15⟩, 0⟩ =
      .error .valueError
    ∧ getUpToDate { harvested := false, frequency := .str "unknown",
                    modified := ⟨⟨2000, 1, 1⟩, 0⟩ } ⟨⟨2024, 6, 15⟩, 0⟩ = .ok true
    ∧ getUpToDate { harvested := false, frequency := .nonStr,
                    modified := ⟨⟨2000, 1, 1⟩, 0⟩ } ⟨⟨2024, 6, 15⟩, 0⟩ = .ok true
    ∧ getUpToDate { harvested := false, frequency := .str "PT1S",
                    modified := ⟨⟨2000, 1, 1⟩, 0⟩ } ⟨⟨2024, 6, 15⟩, 0⟩ = .ok true := by
  decide

/-! ## `helper_functions.infer_name_from_email` (lines 79-94)

Character-level model of the pipeline
`' '.join(re.split(r'[.\-_]', email.split('@')[0].lower())).title()`
followed by `re.sub(r'(Ma?c)([a-z])', ...)` and
`re.sub(r'^MacKenzie', 'Mackenzie', ...)`.  Case mapping is modelled on
ASCII (`Char.toLower` / `Char.toUpper`), matching the ASCII-only
regexes of the source. -/

/-- `re.split(r'[.\-_]', s)`: split at every occurrence of `'.'`,
`'-'` or `'_'` (consecutive separators produce empty fragments). -/
def splitSeps : List Char → List (List Char)
  | [] => [[]]
  | c :: t =>
      let r := splitSeps t
      if c = '.' || c = '-' || c = '_' then [] :: r
      else
        match r with
        | [] => [[c]]
        | h :: t2 => (c :: h) :: t2

/-- `' '.join(fragments)`. -/
def joinSpace : List (List Char) → List Char
  | [] => []
  | [x] => x
  | x :: y :: t => x ++ ' ' :: joinSpace (y :: t)

/-- Helper of `pyTitle`: `prevAlpha` records whether the previous
character was a (ASCII) letter. -/
def pyTitleAux (prevAlpha : Bool) : List Char → List Char
  | [] => []
  | c :: t =>
      (if c.isAlpha then (if prevAlpha then c.toLower else c.toUpper) else c)
        :: pyTitleAux c.isAlpha t

/-- Python `str.title()` on ASCII text: the first letter of every
maximal letter run is uppercased, later letters of the run are
lowercased, other characters are kept. -/
def pyTitle (l : List Char) : List Char := pyTitleAux false l

/-- `re.sub(r'(Ma?c)([a-z])', lambda m: m.group(1) + m.group(2).upper(), s)`:
scan left to right; at each position match `Mac` or `Mc` followed by an
ASCII lowercase letter, uppercase that letter, and continue after the
match. -/
def macSubF : Nat → List Char → List Char
  | 0, l => l
  | _ + 1, [] => []
  | fuel + 1, c0 :: t =>
      if c0 = 'M' then
        match t with
        | 'a' :: 'c' :: c :: rest2 =>
            if c.isLower then 'M' :: 'a' :: 'c' :: c.toUpper :: macSubF fuel rest2
            else 'M' :: macSubF fuel t
        | 'c' :: c :: rest2 =>
            if c.isLower then 'M' :: 'c' :: c.toUpper :: macSubF fuel rest2
            else 'M' :: macSubF fuel t
        | _ => 'M' :: macSubF fuel t
      else c0 :: macSubF fuel t

/-- Entry point of the scan; the fuel `l.length` never runs out, since
every step consumes at least one character. -/
def macSub (l : List Char) : List Char := macSubF l.length l

/-- `re.sub(r'^MacKenzie', 'Mackenzie', s)`: the pattern is anchored,
so only a leading `MacKenzie` is replaced. -/
def mackenzieSub (l : List Char) : List Char :=
  if ['M', 'a', 'c', 'K', 'e', 'n', 'z', 'i', 'e'].isPrefixOf l then
    ['M', 'a', 'c', 'k', 'e', 'n', 'z', 'i', 'e'] ++ l.drop 9
  else l

/-- Embedding of `helper_functions.infer_name_from_email(email)`.  The
argument is `Option String` because `add_dataset` passes
`record['maintainer_email']`, which may be `None`; both `None` and `''`
fail the `if email and email != ''` test and give `''`. -/
def inferNameFromEmail (email : Option String) : String :=
  match email with
  | none => ""
  | some e =>
      if e = "" then ""
      else
        let localPart := e.toList.takeWhile (· ≠ '@')   -- email.split('@')[0]
        let lowered := localPart.map Char.toLower       -- .lower()
        .mk (mackenzieSub (macSub (pyTitle (joinSpace (splitSeps lowered)))))

example : inferNameFromEmail (some "jane-doe@agr.gc.ca") = "Jane Doe" := by decide

example : inferNameFromEmail (some "ian.mcdonald@x.ca") = "Ian McDonald" := by decide

example : inferNameFromEmail (some "mackenzie.scott@x.ca") = "Mackenzie Scott" := by
  decide

example : inferNameFromEmail none = "" := by decide

/-! ## Claim C9 -/

/-- The claim's description of the name pipeline, with the amendment:
split the (lowercased) local part on `.`, `-`, `_`; title-case *each
fragment*; join the fragments with spaces; force the letter following a
`Mac`/`Mc` prefix to uppercase; and normalize the literal sequence
`MacKenzie` to `Mackenzie` *only when it occurs at the very start of
the result* (the source's `re.sub` pattern is anchored with `^`). -/
def inferNameSpecAmended (email : Option String) : String :=
  match email with
  | none => ""
  | some e =>
      if e = "" then ""
      else
        let localPart := e.toList.takeWhile (· ≠ '@')
        let lowered := localPart.map Char.toLower
        let frags := (splitSeps lowered).map pyTitle
        .mk (mackenzieSub (macSub (joinSpace frags)))

lemma pyTitleAux_append_space (xs ys : List Char) :
    ∀ p, pyTitleAux p (xs ++ ' ' :: ys) = pyTitleAux p xs ++ ' ' :: pyTitleAux false ys := by
  have hsp : (' ' : Char).isAlpha = false := by decide
  induction xs with
  | nil => intro p; simp [pyTitleAux, hsp]
  | cons c t ih => intro p; simp [pyTitleAux, ih]

lemma pyTitle_joinSpace :
    ∀ frags : List (List Char), pyTitle (joinSpace frags) = joinSpace (frags.map pyTitle)
  | [] => rfl
  | [_] => rfl
  | x :: y :: t => by
      have ih := pyTitle_joinSpace (y :: t)
      show pyTitleAux false (x ++ ' ' :: joinSpace (y :: t)) = _
      rw [pyTitleAux_append_space]
      simp only [List.map, joinSpace, pyTitle] at ih ⊢
      rw [ih]

/-- C9 counterexample: the claim says the literal sequence `MacKenzie`
is normalized to `Mackenzie` "wherever the name fragment occurs in the
result"; but the source's `re.sub(r'^MacKenzie', ...)` is anchored at
the start of the whole name, so `john.mackenzie@...` yields
`John MacKenzie`, not the claimed `John Mackenzie`. -/
theorem infer_name_mackenzie_only_at_start :
    inferNameFromEmail (some "john.mackenzie@agr.gc.ca") = "John MacKenzie"
    ∧ inferNameFromEmail (some "john.mackenzie@agr.gc.ca") ≠ "John Mackenzie" := by
  decide

/-- C9 (amended): for every email value, `infer_name_from_email`
computes exactly the claim's pipeline — split the local part on
`.`/`-`/`_`, title-case each fragment, join with spaces, uppercase the
letter after a `Mac`/`Mc`, normalize a *leading* `MacKenzie` — where
the amendment restricts the `MacKenzie` normalization to the start of
the result. -/
theorem infer_name_follows_amended_spec (email : Option String) :
    inferNameFromEmail email = inferNameSpecAmended email := by
  cases email with
  | none => rfl
  | some e =>
      by_cases h : e = "" <;>
        simp [inferNameFromEmail, inferNameSpecAmended, h, pyTitle_joinSpace]

/-! ## `Inventory.infer_modified` (`inventories.py` lines 173-196)

The datasets and resources tables store their date fields as ISO
strings, and `infer_modified` compares them with Python `max`, i.e. by
string order (which agrees with chronological order on equal-format ISO
strings).  A missing / `NaN` cell is `none`; `dropna` keeps empty
strings but drops `NaN`. -/

/-- A resource-table row as read by `infer_modified`: the `dataset_id`
foreign key and the row's value in each column (`none` = `NaN`).  Only
date columns are ever read through `cell`. -/
structure ResDateRow where
  dataset_id : String
  cell : String → Option String

/-- The resources table: its column list (`resources.columns`) and its
rows. -/
structure ResDateTable where
  cols : List String
  rows : List ResDateRow

/-- The dataset-row fields read by `infer_modified`: `ds.id` and
`ds.metadata_modified` (`none` = `NaN`; `''` is falsy for the
`if ds.metadata_modified` test but is a real value in the table). -/
structure DsMRow where
  id : String
  metadata_modified : Option String

/-- The `date_columns` priority list of `infer_modified`. -/
def dateColumns : List String := ["last_modified", "metadata_modified", "created"]

/-- The `for col in date_columns: if col in ds_resources.columns: ...
break` loop: the first of the three date columns present in the table's
column list (first match wins, never merged across columns). -/
def firstPresentCol : List String → List String → Option String
  | [], _ => none
  | c :: t, tableCols =>
      if tableCols.contains c then some c else firstPresentCol t tableCols

/-- Python `max` over a list (`none` on the empty list): left fold
keeping the current value unless the next item is strictly greater. -/
def pyMax (l : List String) : Option String :=
  match l with
  | [] => none
  | x :: t => some (t.foldl (fun cur y => if cur < y then y else cur) x)

/-- The `modified_dates` list built by `infer_modified` lines 176-190:
the dataset's own `metadata_modified` if truthy, then all non-`NaN`
values, for the dataset's resources, of the first date column present
in the resource table. -/
def collectedDates (ds : DsMRow) (resources : ResDateTable) : List String :=
  let start : List String :=
    match ds.metadata_modified with
    | some s => if s = "" then [] else [s]
    | none => []
  let dsRes := resources.rows.filter (fun r => r.dataset_id == ds.id)
  let resDates : List String :=
    match firstPresentCol dateColumns resources.cols with
    | some col => dsRes.filterMap (fun r => r.cell col)
    | none => []
  start ++ resDates

/-- Embedding of the static method
`Inventory.infer_modified(ds, resources)`.  `now` stands for the value
`dt.datetime.now()` of the final fallback; that fallback line
`return ds.metadata_modified or dt.datetime.now()` is reached only when
`modified_dates` is empty, which forces `ds.metadata_modified` to be
falsy, so the `or` always yields the current time — the translation
keeps the `or` anyway. -/
def inferModified (ds : DsMRow) (resources : ResDateTable) (now : String) : String :=
  match pyMax (collectedDates ds resources) with
  | some m => m
  | none =>
      match ds.metadata_modified with
      | some s => if s = "" then now else s
      | none => now

lemma foldl_pyMax_mem (t : List String) :
    ∀ x : String, t.foldl (fun cur y => if cur < y then y else cur) x ∈ x :: t := by
  induction t with
  | nil => intro x; exact List.mem_singleton.mpr rfl
  | cons h t ih =>
      intro x
      have hmem := ih (if x < h then h else x)
      show List.foldl (fun cur y => if cur < y then y else cur)
        (if x < h then h else x) t ∈ x :: h :: t
      rcases List.mem_cons.mp hmem with h1 | h1
      · rw [h1]
        by_cases hc : x < h
        · rw [if_pos hc]; exact List.mem_cons_of_mem _ (List.mem_cons_self _ _)
        · rw [if_neg hc]; exact List.mem_cons_self _ _
      · exact List.mem_cons_of_mem _ (List.mem_cons_of_mem _ h1)

lemma foldl_pyMax_ub (t : List String) :
    ∀ x : String, ∀ y ∈ x :: t, y ≤ t.foldl (fun cur y => if cur < y then y else cur) x := by
  induction t with
  | nil =>
      intro x y hy
      rcases List.mem_cons.mp hy with h1 | h1
      · rw [h1]; exact le_refl x
      · exact absurd h1 (List.not_mem_nil _)
  | cons h t ih =>
      intro x y hy
      have hx : x ≤ (if x < h then h else x) := by
        by_cases hc : x < h
        · rw [if_pos hc]; exact le_of_lt hc
        · rw [if_neg hc]
      have hh : h ≤ (if x < h then h else x) := by
        by_cases hc : x < h
        · rw [if_pos hc]
        · rw [if_neg hc]; exact le_of_not_lt hc
      have hacc : (if x < h then h else x) ≤
          List.foldl (fun cur y => if cur < y then y else cur) (if x < h then h else x) t :=
        ih _ _ (List.mem_cons_self _ _)
      show y ≤ List.foldl (fun cur y => if cur < y then y else cur)
        (if x < h then h else x) t
      rcases List.mem_cons.mp hy with h1 | h1
      · rw [h1]; exact le_trans hx hacc
      · rcases List.mem_cons.mp h1 with h2 | h2
        · rw [h2]; exact le_trans hh hacc
        · exact ih _ y (List.mem_cons_of_mem _ h2)

lemma pyMax_spec (l : List String) (m : String) (hm : pyMax l = some m) :
    m ∈ l ∧ ∀ x ∈ l, x ≤ m := by
  match l with
  | [] => simp [pyMax] at hm
  | x :: t =>
      simp only [pyMax, Option.some.injEq] at hm
      subst hm
      exact ⟨foldl_pyMax_mem t x, foldl_pyMax_ub t x⟩

/-! ## Claim C4 -/

/-- C4: `infer_modified` collects the dataset's own metadata-modified
timestamp plus all timestamps of the dataset's resources taken from the
first of the columns `last_modified`, `metadata_modified`, `created`
present in the resource table (`collectedDates`), and:

* when the collected set is nonempty, it returns its maximum (an element
  of the set no element exceeds);
* when the set is empty, it returns the current time — the set can only
  be empty when the dataset's own metadata date is itself absent;
* in particular, when none of the three date columns exists in the
  resource table it returns the dataset's own (present, nonempty)
  metadata date. -/
theorem infer_modified_is_max_of_collected
    (ds : DsMRow) (tbl : ResDateTable) (now : String) :
    (collectedDates ds tbl ≠ [] →
       inferModified ds tbl now ∈ collectedDates ds tbl
       ∧ ∀ x ∈ collectedDates ds tbl, x ≤ inferModified ds tbl now)
    ∧ (collectedDates ds tbl = [] → inferModified ds tbl now = now)
    ∧ (∀ m : String,
        (∀ c ∈ dateColumns, c ∉ tbl.cols) →
        ds.metadata_modified = some m → m ≠ "" →
        inferModified ds tbl now = m) := by
  refine ⟨?_, ?_, ?_⟩
  · intro hne
    cases hm : pyMax (collectedDates ds tbl) with
    | none =>
        cases hL : collectedDates ds tbl with
        | nil => exact absurd hL hne
        | cons a t => rw [hL] at hm; simp [pyMax] at hm
    | some m =>
        have hspec := pyMax_spec _ _ hm
        have heq : inferModified ds tbl now = m := by
          unfold inferModified
          rw [hm]
        rw [heq]
        exact hspec
  · intro hL
    have hpm : pyMax (collectedDates ds tbl) = none := by rw [hL]; rfl
    have hstart := (List.append_eq_nil.mp (by simpa [collectedDates] using hL)).1
    unfold inferModified
    rw [hpm]
    cases hmd : ds.metadata_modified with
    | none => rfl
    | some s =>
        rw [hmd] at hstart
        change (if s = "" then ([] : List String) else [s]) = [] at hstart
        by_cases hs : s = ""
        · simp [hs]
        · rw [if_neg hs] at hstart
          exact absurd hstart (by simp)
  · intro m hcols hmd hm
    have h1 : "last_modified" ∉ tbl.cols := hcols _ (by simp [dateColumns])
    have h2 : "metadata_modified" ∉ tbl.cols := hcols _ (by simp [dateColumns])
    have h3 : "created" ∉ tbl.cols := hcols _ (by simp [dateColumns])
    have hfp : firstPresentCol dateColumns tbl.cols = none := by
      simp [firstPresentCol, dateColumns, h1, h2, h3]
    have hcd : collectedDates ds tbl = [m] := by
      simp [collectedDates, hfp, hmd, hm]
    simp [inferModified, hcd, pyMax]

/-- C4 witness: a resource table with none of the three date columns and
one resource of the dataset; `infer_modified` returns the dataset's own
metadata date, through the theorem's third conjunct. -/
theorem infer_modified_is_max_of_collected_witness :
    inferModified ⟨"d1", some "2024-01-02"⟩
      ⟨["id", "title_en", "format"], [⟨"d1", fun _ => none⟩]⟩ "2025-01-01" =
      "2024-01-02" :=
  (infer_modified_is_max_of_collected ⟨"d1", some "2024-01-02"⟩
      ⟨["id", "title_en", "format"], [⟨"d1", fun _ => none⟩]⟩ "2025-01-01").2.2
    "2024-01-02" (by decide) rfl (by decide)

/-! ## `Inventory.get_spec` (`inventories.py` lines 262-279) -/

/-- A resource-table row as read by `get_spec`. -/
structure SpecRow where
  dataset_id : String
  resource_type : String
  title_en : String
  deriving DecidableEq, Repr

/-- `pat` occurs as a contiguous substring of `l` (the regex-`search`
semantics of an alternation branch made of plain characters). -/
def hasSubstr : List Char → List Char → Bool
  | [], pat => pat.isEmpty
  | c :: t, pat => pat.isPrefixOf (c :: t) || hasSubstr t pat

/-- One position of the regex branch `[_\-]dd.`: the current character
`c1` is `'_'` or `'-'`, followed by `'d'`, `'d'` and one more character,
which must not be a newline (regex `'.'` does not match `'\n'`). -/
def ddHeadMatch (c1 : Char) (t : List Char) : Bool :=
  match t with
  | d1 :: d2 :: c2 :: _ => d1 = 'd' && d2 = 'd' && (c1 = '_' || c1 = '-') && c2 != '\n'
  | _ => false

/-- `re.search` of the branch `[_\-]dd.` anywhere in the list. -/
def hasDDDot : List Char → Bool
  | [] => false
  | c1 :: t => ddHeadMatch c1 t || hasDDDot t

/-- One title matches
`re.search(r'(data dictionary|specification|^dd[_\-]|[_\-]dd.)', case=False)`:
computed on the lowercased character list (`case=False` modelled by
ASCII lowercasing; the pattern's own letters are lowercase). -/
def titleMatches (s : String) : Bool :=
  let l := s.toList.map Char.toLower
  hasSubstr l "data dictionary".toList
  || hasSubstr l "specification".toList
  || "dd_".toList.isPrefixOf l
  || "dd-".toList.isPrefixOf l
  || hasDDDot l

/-- Embedding of the static method `Inventory.get_spec(ds, all_resources)`:
if the dataset has a resource whose `resource_type` is `'dataset'`, it is
compliant iff some resource title matches the dictionary/specification
regex; otherwise it is compliant outright. -/
def getSpec (dsId : String) (allResources : List SpecRow) : Bool :=
  let resources := allResources.filter (fun r => r.dataset_id == dsId)
  if resources.any (fun r => r.resource_type == "dataset") then
    resources.any (fun r => titleMatches r.title_en)
  else true

example : titleMatches "Data Dictionary for X" = true := by decide

example : titleMatches "my_table_dd.csv" = true := by decide

example : titleMatches "dd_codes" = true := by decide

example : titleMatches "table_dd" = false := by decide

/-! ## Claim C5 -/

/-- The claim's title pattern, amended: `data dictionary` or
`specification` anywhere (case-insensitively), a leading `dd_`/`dd-`
token, or `_dd`/`-dd` followed by *at least one more character* (which
is not a newline) — a title ending exactly in `_dd` or `-dd` does
**not** count, because the source regex `[_\-]dd.` requires a character
after the `dd`. -/
def SpecTitleAmended (s : String) : Prop :=
  let l := s.toList.map Char.toLower
  (∃ a b, l = a ++ ("data dictionary".toList ++ b))
  ∨ (∃ a b, l = a ++ ("specification".toList ++ b))
  ∨ "dd_".toList <+: l
  ∨ "dd-".toList <+: l
  ∨ (∃ a c1 c2 b, l = a ++ c1 :: 'd' :: 'd' :: c2 :: b
      ∧ (c1 = '_' ∨ c1 = '-') ∧ c2 ≠ '\n')

lemma hasSubstr_iff (pat : List Char) :
    ∀ l, hasSubstr l pat = true ↔ ∃ a b, l = a ++ (pat ++ b) := by
  intro l
  induction l with
  | nil =>
      simp only [hasSubstr]
      constructor
      · intro h
        have hp : pat = [] := by
          cases pat with
          | nil => rfl
          | cons x xs => simp [List.isEmpty] at h
        subst hp
        exact ⟨[], [], rfl⟩
      · rintro ⟨a, b, hab⟩
        obtain ⟨ha, hpb⟩ := List.append_eq_nil.mp hab.symm
        obtain ⟨hp, hb⟩ := List.append_eq_nil.mp hpb
        subst hp
        rfl
  | cons c t ih =>
      simp only [hasSubstr, Bool.or_eq_true, ih]
      constructor
      · rintro (hp | ⟨a, b, hab⟩)
        · obtain ⟨b, hb⟩ := List.isPrefixOf_iff_prefix.mp hp
          exact ⟨[], b, by simp [hb]⟩
        · exact ⟨c :: a, b, by simp [hab]⟩
      · rintro ⟨a, b, hab⟩
        cases a with
        | nil =>
            left
            exact List.isPrefixOf_iff_prefix.mpr ⟨b, by simpa using hab.symm⟩
        | cons a0 a1 =>
            right
            simp only [List.cons_append, List.cons.injEq] at hab
            exact ⟨a1, b, hab.2⟩

lemma ddHeadMatch_iff (c1 : Char) (t : List Char) :
    ddHeadMatch c1 t = true ↔
      ∃ c2 b, t = 'd' :: 'd' :: c2 :: b ∧ (c1 = '_' ∨ c1 = '-') ∧ c2 ≠ '\n' := by
  match t with
  | [] => simp [ddHeadMatch]
  | [d1] => simp [ddHeadMatch]
  | [d1, d2] => simp [ddHeadMatch]
  | d1 :: d2 :: c2 :: rest =>
      simp [ddHeadMatch, Bool.and_eq_true, Bool.or_eq_true, decide_eq_true_eq,
        bne_iff_ne, List.cons.injEq, and_assoc]

lemma hasDDDot_iff :
    ∀ l : List Char, hasDDDot l = true ↔
      ∃ a x y b, l = a ++ x :: 'd' :: 'd' :: y :: b ∧ (x = '_' ∨ x = '-') ∧ y ≠ '\n' := by
  intro l
  induction l with
  | nil =>
      simp only [hasDDDot, Bool.false_eq_true, false_iff]
      rintro ⟨a, x, y, b, hab, _, _⟩
      exact absurd hab.symm (by simp)
  | cons c1 t ih =>
      simp only [hasDDDot, Bool.or_eq_true, ih, ddHeadMatch_iff]
      constructor
      · rintro (⟨c2, b, ht, hc, hn⟩ | ⟨a, x, y, b, hab, hc, hn⟩)
        · exact ⟨[], c1, c2, b, by simp [ht], hc, hn⟩
        · exact ⟨c1 :: a, x, y, b, by simp [hab], hc, hn⟩
      · rintro ⟨a, x, y, b, hab, hc, hn⟩
        cases a with
        | nil =>
            left
            simp only [List.nil_append, List.cons.injEq] at hab
            exact ⟨y, b, hab.2, hab.1 ▸ hc, hn⟩
        | cons a0 a1 =>
            right
            simp only [List.cons_append, List.cons.injEq] at hab
            exact ⟨a1, x, y, b, hab.2, hc, hn⟩

lemma titleMatches_iff (s : String) : titleMatches s = true ↔ SpecTitleAmended s := by
  simp only [titleMatches, SpecTitleAmended, Bool.or_eq_true, hasSubstr_iff, hasDDDot_iff,
    List.isPrefixOf_iff_prefix, or_assoc]

/-- C5 counterexample: for a dataset with a `'dataset'`-typed resource,
a resource title ending exactly in `_dd` does **not** make the dataset
compliant (the regex branch `[_\-]dd.` demands a character after `dd`),
contradicting the claim; with one further character it does. -/
theorem get_spec_title_ending_in_dd_not_compliant :
    getSpec "d1" [⟨"d1", "dataset", "table_dd"⟩] = false
    ∧ getSpec "d1" [⟨"d1", "dataset", "table_dd.csv"⟩] = true := by
  decide

/-- C5 (amended): `get_spec` is `True` iff the dataset has no
`'dataset'`-typed resource, or some resource of the dataset has a title
matching (case-insensitively) `data dictionary`, `specification`, a
leading `dd_`/`dd-` token, or `_dd`/`-dd` followed by at least one
further (non-newline) character — the amendment being that a title
ending exactly in `_dd`/`-dd` does not count. -/
theorem get_spec_iff_amended (dsId : String) (rs : List SpecRow) :
    getSpec dsId rs = true ↔
      ((∀ r ∈ rs, r.dataset_id = dsId → r.resource_type ≠ "dataset")
       ∨ ∃ r ∈ rs, r.dataset_id = dsId ∧ SpecTitleAmended r.title_en) := by
  unfold getSpec
  by_cases h : (rs.filter (fun r => r.dataset_id == dsId)).any
      (fun r => r.resource_type == "dataset")
  · rw [if_pos h]
    constructor
    · intro ha
      obtain ⟨r, hr, ht⟩ := List.any_eq_true.mp ha
      have hmem := List.mem_filter.mp hr
      right
      exact ⟨r, hmem.1, by simpa using hmem.2, (titleMatches_iff _).mp ht⟩
    · rintro (hall | ⟨r, hrmem, hrid, hrt⟩)
      · obtain ⟨r, hr, htype⟩ := List.any_eq_true.mp h
        have hmem := List.mem_filter.mp hr
        exact absurd (by simpa using htype) (hall r hmem.1 (by simpa using hmem.2))
      · exact List.any_eq_true.mpr
          ⟨r, List.mem_filter.mpr ⟨hrmem, by simpa using hrid⟩,
            (titleMatches_iff _).mpr hrt⟩
  · rw [if_neg h]
    have : ∀ r ∈ rs, r.dataset_id = dsId → r.resource_type ≠ "dataset" := by
      intro r hr hid htype
      exact h (List.any_eq_true.mpr
        ⟨r, List.mem_filter.mpr ⟨hr, by simpa using hid⟩, by simpa using htype⟩)
    exact iff_of_true rfl (Or.inl this)

/-- C5 witness: a dataset with a `'dataset'`-typed resource and a
`Data Dictionary` title is compliant, through the amended theorem. -/
theorem get_spec_iff_amended_witness :
    getSpec "d1" [⟨"d1", "dataset", "x"⟩, ⟨"d1", "guide", "Data Dictionary"⟩] = true :=
  (get_spec_iff_amended "d1"
      [⟨"d1", "dataset", "x"⟩, ⟨"d1", "guide", "Data Dictionary"⟩]).mpr
    (Or.inr ⟨⟨"d1", "guide", "Data Dictionary"⟩, by decide, rfl,
      Or.inl ⟨[], [], by decide⟩⟩)

/-! ## `Inventory.get_open_formats` (`inventories.py` lines 245-260) -/

/-- A row of the static `FORMATS` lookup table (`format`,
`format_type`, `open`; `open` is a Lean keyword, hence `openFlag`).
The table's content lives in the repository's data module; all claims
about `get_open_formats` are proved for an arbitrary table. -/
structure FmtRow where
  format : String
  format_type : String
  openFlag : Bool
  deriving DecidableEq, Repr

/-- A resource-table row as read by `get_open_formats`. -/
structure OfRow where
  dataset_id : String
  format : String
  deriving DecidableEq, Repr

/-- One resource row's contribution to
`resources.merge(FORMATS, how='left', on='format')`: one joined row per
matching `FORMATS` row (carrying that row's `format_type` and `open`),
or a single row with null `format_type`/`open` (`none`) when no
`FORMATS` row has its format. -/
def mergeOne (formats : List FmtRow) (r : OfRow) : List (Option (String × Bool)) :=
  let ms := formats.filter (fun f => f.format == r.format)
  if ms.isEmpty then [none] else ms.map (fun f => some (f.format_type, f.openFlag))

/-- The left merge of the dataset's resources with `FORMATS`. -/
def mergedRows (formats : List FmtRow) (resources : List OfRow) :
    List (Option (String × Bool)) :=
  resources.flatMap (mergeOne formats)

/-- First-occurrence deduplication of the group keys (`groupby` visits
each distinct key once; its sorting of keys is irrelevant to the
conjunction below). -/
def dedupKeys : List String → List String
  | [] => []
  | k :: t => k :: (dedupKeys t).filter (fun x => x != k)

/-- Embedding of the static method
`Inventory.get_open_formats(ds, all_resources)`: group the left-merged
rows by `format_type` — `groupby` drops the null key, so resources with
a format absent from `FORMATS` belong to no group — and return `True`
iff every group's set of `open` values contains `True`. -/
def getOpenFormats (dsId : String) (allResources : List OfRow)
    (formats : List FmtRow) : Bool :=
  let resources := allResources.filter (fun r => r.dataset_id == dsId)
  let merged := mergedRows formats resources
  let groupKeys := dedupKeys (merged.filterMap (fun m => m.map Prod.fst))
  groupKeys.all (fun ft => merged.any (fun m => m == some (ft, true)))

example :
    getOpenFormats "d1"
      [⟨"d1", "CSV"⟩, ⟨"d1", "PDF"⟩]
      [⟨"CSV", "tabular", true⟩, ⟨"PDF", "document", false⟩] = false := by decide

example :
    getOpenFormats "d1"
      [⟨"d1", "CSV"⟩, ⟨"d1", "XLS"⟩]
      [⟨"CSV", "tabular", true⟩, ⟨"XLS", "tabular", false⟩] = true := by decide

example :
    getOpenFormats "d1" [⟨"d1", "WEIRD"⟩] [⟨"CSV", "tabular", true⟩] = true := by
  decide

lemma mergeOne_unknown (formats : List FmtRow) (r : OfRow)
    (h : ∀ f ∈ formats, f.format ≠ r.format) : mergeOne formats r = [none] := by
  have hf : formats.filter (fun f => f.format == r.format) = [] := by
    apply List.filter_eq_nil_iff.mpr
    intro f hfm
    simpa using h f hfm
  simp [mergeOne, hf]

lemma mergedRows_all_unknown (formats : List FmtRow) :
    ∀ L : List OfRow, (∀ r ∈ L, ∀ f ∈ formats, f.format ≠ r.format) →
      mergedRows formats L = L.map (fun _ => none) := by
  intro L
  induction L with
  | nil => intro _; rfl
  | cons r t ih =>
      intro h
      have ht := ih (fun x hx => h x (List.mem_cons_of_mem _ hx))
      have hone := mergeOne_unknown formats r (h r (List.mem_cons_self _ _))
      simp only [mergedRows, List.flatMap_cons] at ht ⊢
      rw [hone, ht]
      rfl

lemma filterMap_map_none (L : List OfRow) :
    (L.map (fun _ => (none : Option (String × Bool)))).filterMap
      (fun m => m.map Prod.fst) = [] := by
  induction L with
  | nil => rfl
  | cons r t ih => simp [ih]

/-! ## Claim C10 -/

/-- C10: `get_open_formats` considers only resources whose declared
format appears in the `FORMATS` lookup table: (1) appending a resource
with an unknown format never changes the verdict (it lands in the
dropped null group); (2) a dataset all of whose resources have unknown
formats — in particular a dataset with zero resources — is reported
compliant (`True`). -/
theorem get_open_formats_ignores_unknown_formats (dsId : String) (rs : List OfRow)
    (formats : List FmtRow) (r : OfRow) :
    ((∀ f ∈ formats, f.format ≠ r.format) →
       getOpenFormats dsId (rs ++ [r]) formats = getOpenFormats dsId rs formats)
    ∧ ((∀ res ∈ rs, res.dataset_id = dsId → ∀ f ∈ formats, f.format ≠ res.format) →
       getOpenFormats dsId rs formats = true) := by
  constructor
  · intro h
    have hone := mergeOne_unknown formats r h
    by_cases hid : r.dataset_id = dsId
    · have hb : (r.dataset_id == dsId) = true := by simpa using hid
      simp only [getOpenFormats, List.filter_append, List.filter_singleton, hb,
        cond_true, mergedRows, List.flatMap_append, List.flatMap_cons,
        List.flatMap_nil, hone, List.append_nil, List.filterMap_append,
        List.filterMap_cons, List.filterMap_nil, List.any_append]
      simp
    · have hb : (r.dataset_id == dsId) = false := by simpa using hid
      simp [getOpenFormats, List.filter_append, List.filter_singleton, hb]
  · intro h
    have hfilter : ∀ x ∈ rs.filter (fun q => q.dataset_id == dsId),
        ∀ f ∈ formats, f.format ≠ x.format := by
      intro x hx
      have hm := List.mem_filter.mp hx
      exact h x hm.1 (by simpa using hm.2)
    have hm := mergedRows_all_unknown formats _ hfilter
    simp only [getOpenFormats]
    rw [hm, filterMap_map_none]
    rfl

/-- C10 witness: a dataset whose only resource has a format absent from
the lookup table is compliant, through the theorem's second conjunct. -/
theorem get_open_formats_ignores_unknown_formats_witness :
    getOpenFormats "d1" [⟨"d1", "WEIRD"⟩] [⟨"CSV", "tabular", true⟩] = true :=
  (get_open_formats_ignores_unknown_formats "d1" [⟨"d1", "WEIRD"⟩]
      [⟨"CSV", "tabular", true⟩] ⟨"d1", "OTHER"⟩).2 (by decide)

/-! ## Harvesting: `add_dataset`, `add_resource`,
`_collect_dataset_with_resources` and `inventory`
(`inventories.py` lines 43-171, 283-360)

The CKAN payloads are Python dicts; the embedding gives them structure
types whose `Option` fields model key *presence* (`none` = the key is
missing and direct indexing raises `KeyError`).  Where the source also
distinguishes a present-but-`None` value (the maintainer-email chain),
the field is an `Option (Option _)`. -/

/-- `dataset['title_translated']`: a nested dict whose `'en'` / `'fr'`
keys may each be missing. -/
structure TitleTranslated where
  en : Option String
  fr : Option String
  deriving DecidableEq, Repr

/-- `dataset['organization']`. -/
structure PyOrganization where
  name : Option String
  title : Option String
  deriving DecidableEq, Repr

/-- `resource.get('name_translated', {})` and the following
`isinstance(..., dict)` test: the key may be absent (the default `{}`
is a dict), hold a dict with optional `'fr'` / `'fr-t-en'` string
values, or hold a non-dict value. -/
inductive NameTranslatedVal
  | absent
  | dict (fr : Option String) (frTEn : Option String)
  | nonDict
  deriving DecidableEq, Repr

/-- `resource['language']`: absent key, a list of code strings, or a
malformed value (whose iteration raises inside the inner `try`,
degrading `lang` to `''`). -/
inductive LanguageVal
  | absent
  | strs (l : List String)
  | bad
  deriving DecidableEq, Repr

/-- A resource payload, restricted to the keys `add_resource` reads. -/
structure PyResource where
  id : Option String
  name : Option String
  created : Option String
  format : Option String
  package_id : Option String
  resource_type : Option String
  url : Option String
  language : LanguageVal
  metadata_modified : Option String
  name_translated : NameTranslatedVal
  deriving DecidableEq, Repr

/-- A dataset payload, restricted to the keys `add_dataset` and
`_collect_dataset_with_resources` read. -/
structure PyDataset where
  id : Option String
  title_translated : Option TitleTranslated
  date_published : Option String
  metadata_created : Option String
  metadata_modified : Option String
  num_resources : Option Int
  organization : Option PyOrganization
  maintainer_email : Option (Option String)
  data_steward_email : Option (Option String)
  author_email : Option (Option String)
  collection : Option String
  frequency : Option PyCell
  resources : Option (List PyResource)
  deriving DecidableEq, Repr

/-- Python `str.lower()` on ASCII text. -/
def lowerStr (s : String) : String := .mk (s.toList.map Char.toLower)

/-- `dt.datetime.strptime(s, '%Y-%m-%d %H:%M:%S').isoformat()`:
accepts exactly `YYYY-MM-DD HH:MM:SS` with valid calendar ranges and
returns the same text with the space replaced by `'T'`; `none` models
the `ValueError` on anything else.  (Python's `%Y` also accepts
shorter year fields; the claims do not depend on that corner.) -/
def strptimeIso (s : String) : Option String :=
  match s.toList with
  | [y1, y2, y3, y4, '-', m1, m2, '-', d1, d2, ' ',
     h1, h2, ':', n1, n2, ':', s1, s2] =>
      if [y1, y2, y3, y4, m1, m2, d1, d2, h1, h2, n1, n2, s1, s2].all Char.isDigit then
        let y : Nat := (((y1.toNat - 48) * 10 + (y2.toNat - 48)) * 10 + (y3.toNat - 48))
            * 10 + (y4.toNat - 48)
        let mo : Nat := (m1.toNat - 48) * 10 + (m2.toNat - 48)
        let d : Nat := (d1.toNat - 48) * 10 + (d2.toNat - 48)
        let h : Nat := (h1.toNat - 48) * 10 + (h2.toNat - 48)
        let mi : Nat := (n1.toNat - 48) * 10 + (n2.toNat - 48)
        let sec : Nat := (s1.toNat - 48) * 10 + (s2.toNat - 48)
        if 1 ≤ y && 1 ≤ mo && mo ≤ 12 && 1 ≤ d && d ≤ monthLen (y : Int) mo
            && h ≤ 23 && mi ≤ 59 && sec ≤ 59 then
          some (.mk [y1, y2, y3, y4, '-', m1, m2, '-', d1, d2, 'T',
                     h1, h2, ':', n1, n2, ':', s1, s2])
        else none
      else none
  | _ => none

/-- `re.sub(r'([^\|]+) \| ([^\|]+)', r'\1', s)` on a char list, with
fuel (every step consumes at least one character, so `l.length` fuel
never runs out).  A match needs a maximal non-pipe run ending in a
space (group 1 is the run minus that space, nonempty), the literal
`'| '`, and a nonempty maximal non-pipe run (group 2); the match is
replaced by group 1 and scanning resumes after group 2.  No match can
begin inside a failed run (any later start shares the run's ending and
the same following characters), so scanning resumes at the pipe. -/
def orgSubF : Nat → List Char → List Char
  | 0, l => l
  | _ + 1, [] => []
  | fuel + 1, '|' :: t => '|' :: orgSubF fuel t
  | fuel + 1, c :: t =>
      let run := (c :: t).takeWhile (fun x => x != '|')
      let rest := (c :: t).dropWhile (fun x => x != '|')
      match rest with
      | '|' :: ' ' :: u =>
          if 2 ≤ run.length && (run.getLastD ' ' == ' ') && (match u with
              | x :: _ => x != '|'
              | [] => false) then
            run.dropLast ++ orgSubF fuel (u.dropWhile (fun x => x != '|'))
          else run ++ orgSubF fuel rest
      | _ => run ++ orgSubF fuel rest

/-- The org-title truncation applied by `add_dataset` line 62: a
pipe-separated bilingual pair keeps its first language. -/
def orgTitleSub (s : String) : String := .mk (orgSubF s.toList.length s.toList)

example : orgTitleSub "Agriculture and Agri-Food | Agriculture et Agroalimentaire" =
    "Agriculture and Agri-Food" := by decide

example : orgTitleSub "No pipes here" = "No pipes here" := by decide

/-- `REGISTRY_DATASETS_BASE_URL.format(id)` (`constants.py`). -/
def registryDatasetUrl (id : String) : String :=
  "https://open.canada.ca/data/en/dataset/" ++ id

/-- `REGISTRY_RESOURCES_BASE_URL.format(dsid, rid)` (`constants.py`). -/
def registryResourceUrl (dsid rid : String) : String :=
  "https://open.canada.ca/data/en/dataset/" ++ dsid ++ "/resource/" ++ rid

/-- A (possibly partial) row of the datasets table as built by
`add_dataset`'s `record` dict: every field is `Option`-valued because
the dict grows one assignment at a time and an exception freezes it
mid-way.  `maintainer_email` and `collection` are `Option (Option _)`:
the outer layer says the key was assigned, the inner layer is the
(possibly `None`) Python value. -/
structure DsRecord where
  id : Option String := none
  title_en : Option String := none
  title_fr : Option String := none
  published : Option String := none
  metadata_created : Option String := none
  metadata_modified : Option String := none
  num_resources : Option Int := none
  on_registry : Option Bool := none
  org : Option String := none
  org_title : Option String := none
  registry_link : Option String := none
  harvested : Option Bool := none
  internal : Option Bool := none
  maintainer_email : Option (Option String) := none
  maintainer_name : Option String := none
  collection : Option (Option String) := none
  frequency : Option PyCell := none
  deriving DecidableEq, Repr

/-- The `try` body of `add_dataset` (lines 49-103): the record's fields
are assigned in source order; the first failing access stops the build
and the partially built record is returned together with the raised
error (`none` = no exception). -/
def buildRecord (dataset : PyDataset) : DsRecord × Option PyErr :=
  let record : DsRecord := {}
  match dataset.id with
  | none => (record, some .keyError)
  | some idv =>
  let record := { record with id := some idv }
  match dataset.title_translated with
  | none => (record, some .keyError)
  | some tt =>
  match tt.en with
  | none => (record, some .keyError)
  | some ten =>
  let record := { record with title_en := some ten }
  match tt.fr with
  | none => (record, some .keyError)
  | some tfr =>
  let record := { record with title_fr := some tfr }
  match dataset.date_published with
  | none => (record, some .keyError)
  | some dp =>
  match strptimeIso dp with
  | none => (record, some .valueError)
  | some iso =>
  let record := { record with published := some iso }
  match dataset.metadata_created with
  | none => (record, some .keyError)
  | some mc =>
  let record := { record with metadata_created := some mc }
  match dataset.metadata_modified with
  | none => (record, some .keyError)
  | some mm =>
  let record := { record with metadata_modified := some mm }
  match dataset.num_resources with
  | none => (record, some .keyError)
  | some nr =>
  let record := { record with num_resources := some nr }
  match dataset.organization with
  | none => (record, some .keyError)
  | some orgv =>
  match orgv.name with
  | none => (record, some .keyError)
  | some orgName =>
  match orgv.title with
  | none => (record, some .keyError)
  | some orgTitleRaw =>
  let record := { record with
    on_registry := some true,
    org := some orgName,
    org_title := some (orgTitleSub orgTitleRaw),
    registry_link := some (registryDatasetUrl idv),
    harvested := some false,
    internal := some false }
  match dataset.maintainer_email with
  | none => (record, some .keyError)
  | some me =>
  let email : Option String :=
    match me with
    | some e => some (lowerStr e)
    | none =>
        match dataset.data_steward_email with
        | some (some e) => some (lowerStr e)
        | _ =>
            match dataset.author_email with
            | some (some e) => some (lowerStr e)
            | _ => none
  let record := { record with
    maintainer_email := some email,
    maintainer_name := some (inferNameFromEmail email) }
  -- `try: ... dataset['collection'] except KeyError: ... = None`
  let record := { record with collection := some dataset.collection }
  match dataset.frequency with
  | none => (record, some .keyError)
  | some fr =>
  -- the isinstance check on the frequency only prints
  let record := { record with frequency := some fr }
  (record, none)

/-- Embedding of the static method
`Inventory.add_dataset(dataset, datasets, lock)` (lines 43-108): the
record is built inside a `try` whose `except` only prints, and the
lock-guarded append sits *outside* the `try` — so the (possibly
partial) record is appended even when a normalization step raised. -/
def addDataset (dataset : PyDataset) (datasets : List DsRecord) : List DsRecord :=
  let (record, _err) := buildRecord dataset
  datasets ++ [record]

/-- A row of the resources table as built by `add_resource` (every
field has a default in the source's record dict, so a complete row is
always built for well-typed payloads; a failure inside the `try` makes
`add_resource` `return` without appending — unlike `add_dataset`). -/
structure ResRecord where
  id : String
  title_en : String
  created : String
  format : String
  dataset_id : String
  resource_type : String
  url : String
  title_fr : String
  metadata_modified : String
  lang : String
  url_status : Int
  https : Bool
  registry_link : String
  deriving DecidableEq, Repr

/-- A network interaction of the harvest: the `package_search` call of
`search_datasets`, a `package_show` fetch (`dc.get_dataset(id)`), or
the `HEAD` request of `TenaciousSession.get_status_code(url)` issued
while normalizing a resource. -/
inductive NetCall
  | search
  | fetchDataset (id : String)
  | headRequest (url : String)
  deriving DecidableEq, Repr

/-- The external world of a harvest run: the catalogue (search results
and per-id dataset payloads), the URL checker's status oracle, the
`validators.url` predicate, and the `ISO639_MAP` alias table (both of
the latter are external libraries / data files of the repository). -/
structure World where
  searchResult : List String
  fetch : String → Except PyErr PyDataset
  urlStatus : String → Int
  validUrl : String → Bool
  isoMap : String → Option String

/-- `'/'.join(lang)`. -/
def joinSlash : List String → String
  | [] => ""
  | [x] => x
  | x :: y :: t => x ++ "/" ++ joinSlash (y :: t)

/-- Embedding of the static method
`Inventory.add_resource(resource, resources, lock)` (lines 110-171):
builds the record with `.get` defaults, validates the URL (issuing one
`HEAD` request when `validators.url` accepts it), maps the language
codes through `ISO639_MAP` (degrading to `''` on malformed data), picks
up optional `metadata_modified` and `name_translated`, and appends the
row.  Returns the new table and the network calls issued. -/
def addResource (w : World) (resource : PyResource) (resources : List ResRecord) :
    List ResRecord × List NetCall :=
  let url := resource.url.getD ""
  let record0 : ResRecord := {
    id := resource.id.getD "",
    title_en := resource.name.getD "",
    created := resource.created.getD "",
    format := resource.format.getD "",
    dataset_id := resource.package_id.getD "",
    resource_type := resource.resource_type.getD "",
    url := url,
    title_fr := "", metadata_modified := "", lang := "",
    url_status := -1, https := false, registry_link := "" }
  let (record1, calls) :=
    if url ≠ "" then
      let record := { record0 with
        https := startsWithB url "https" || startsWithB url "file" }
      if w.validUrl url then
        ({ record with url_status := w.urlStatus url }, [NetCall.headRequest url])
      else (record, [])
    else (record0, [])
  let record2 :=
    match resource.language with
    | .absent => record1
    | .strs ls => { record1 with lang := joinSlash (ls.map (fun x => (w.isoMap x).getD x)) }
    | .bad => { record1 with lang := "" }
  let record3 :=
    match resource.metadata_modified with
    | some mmv => { record2 with metadata_modified := mmv }
    | none => record2
  let record4 :=
    match resource.name_translated with
    | .absent => record3
    | .dict frv frTEn =>
        { record3 with title_fr :=
            match frv with
            | some f => if f = "" then frTEn.getD "" else f
            | none => frTEn.getD "" }
    | .nonDict => record3
  let record5 := { record4 with
    registry_link := registryResourceUrl record4.dataset_id record4.id }
  (resources ++ [record5], calls)

/-- The two shared tables of an `Inventory`. -/
structure Inv where
  datasets : List DsRecord
  resources : List ResRecord
  deriving DecidableEq, Repr

/-- Embedding of `Inventory._collect_dataset_with_resources`
(lines 283-310) for one worker task.  `hasDriver` says whether the
catalogue is a `DriverDataCatalogue` (so `driver_lock` is a real lock);
`lockHeld` is the driver lock's state when the task starts (the
embedding of `acquire` flips it to held — a real already-held lock would
block the worker instead, a state the theorems below never enter).

The `try` covers the fetch, the dataset append and the resource loop;
the `except` only prints and the `finally` only updates the progress
bar.  On a failed fetch the `driver_lock.release()` of line 295 is
never reached, so the task ends with the lock still held. -/
def collectStep (w : World) (hasDriver : Bool) (id : String) (inv : Inv)
    (lockHeld : Bool) : Inv × Bool × List NetCall :=
  let lockHeld1 := if hasDriver then true else lockHeld
  match w.fetch id with
  | .error _ =>
      (inv, lockHeld1, [NetCall.fetchDataset id])
  | .ok dataset =>
      let lockHeld2 := if hasDriver then false else lockHeld1
      let datasets1 := addDataset dataset inv.datasets
      match dataset.resources with
      | none =>
          -- `for resource in dataset['resources']` raises `KeyError`,
          -- caught by the same `except` — after the dataset row was
          -- already appended
          ({ inv with datasets := datasets1 }, lockHeld2, [NetCall.fetchDataset id])
      | some rs =>
          let (resTbl, calls) := rs.foldl
            (fun acc r =>
              let (tbl, cs) := addResource w r acc.1
              (tbl, acc.2 ++ cs))
            (inv.resources, ([] : List NetCall))
          ({ datasets := datasets1, resources := resTbl }, lockHeld2,
            NetCall.fetchDataset id :: calls)

/-- Insertion into a list sorted by a string key. -/
def insertByKey {α : Type} (key : α → String) (x : α) : List α → List α
  | [] => [x]
  | y :: t => if key x < key y then x :: y :: t else y :: insertByKey key x t

/-- The deterministic post-sort of `inventory`
(`sort_values(by=...)` + `reset_index(drop=True)`), as an insertion
sort on the key column (the claims only exercise it on lists of length
≤ 1, where every sort agrees). -/
def sortByKey {α : Type} (key : α → String) : List α → List α
  | [] => []
  | x :: t => insertByKey key x (sortByKey key t)

/-- Embedding of `Inventory.inventory(dc, datasets_ids, owner_org)`
(lines 312-360).  `if not datasets_ids:` treats both `None` and the
*empty list* as falsy, so either triggers the `dc.search_datasets`
network call.  The worker pool is linearized in submission order (each
table append is lock-guarded in the source; the claims proved below do
not depend on interleaving), threading the shared driver-lock state
through the tasks.  The final tables are sorted (datasets by `id`,
resources by `dataset_id`); the `astype` re-cast does not change the
(already typed) embedded rows. -/
def inventoryRun (w : World) (hasDriver : Bool) (idsArg : Option (List String))
    (inv : Inv) : Inv × List NetCall :=
  let (ids, calls0) :=
    match idsArg with
    | none => (w.searchResult, [NetCall.search])
    | some l => if l.isEmpty then (w.searchResult, [NetCall.search]) else (l, [])
  let (inv1, _, calls1) := ids.foldl
    (fun st id =>
      let (i, lh, cs) := st
      let (i2, lh2, cs2) := collectStep w hasDriver id i lh
      (i2, lh2, cs ++ cs2))
    (inv, false, ([] : List NetCall))
  let final : Inv :=
    { datasets := sortByKey (fun r => r.id.getD "") inv1.datasets,
      resources := sortByKey (fun r => r.dataset_id) inv1.resources }
  (final, calls0 ++ calls1)

/-! ## Claims C6, C7, C8 -/

/-- A malformed dataset payload: it has an `'id'` but no
`'title_translated'` key, so `add_dataset`'s normalization raises
`KeyError` at its second assignment. -/
def badDataset : PyDataset :=
  { id := some "d1", title_translated := none, date_published := none,
    metadata_created := none, metadata_modified := none, num_resources := none,
    organization := none, maintainer_email := none, data_steward_email := none,
    author_email := none, collection := none, frequency := none, resources := none }

/-- A well-formed dataset payload (with an empty resource list). -/
def goodDataset : PyDataset :=
  { id := some "good",
    title_translated := some ⟨some "Crop Yields", some "Rendements"⟩,
    date_published := some "2020-01-02 03:04:05",
    metadata_created := some "2020-01-01T00:00:00",
    metadata_modified := some "2020-06-01T00:00:00",
    num_resources := some 0,
    organization := some ⟨some "aafc", some "Agriculture | Agricultura"⟩,
    maintainer_email := some (some "Jane.Doe@agr.gc.ca"),
    data_steward_email := none, author_email := none,
    collection := some "primary",
    frequency := some (.str "P1M"),
    resources := some [] }

/-- A concrete harvest world: searching returns no ids, fetching
`"good"` resolves to `goodDataset`, fetching anything else raises. -/
def harvestWorld : World :=
  { searchResult := [],
    fetch := fun id => if id = "good" then .ok goodDataset else .error .valueError,
    urlStatus := fun _ => 200,
    validUrl := fun _ => false,
    isoMap := fun _ => none }

example : (buildRecord goodDataset).2 = none := by decide

example : (buildRecord goodDataset).1.maintainer_name = some "Jane Doe" := by decide

/-- C6: the claim says a dataset whose normalization fails leaves the
datasets table unchanged.  The fetch-failure half is true (and proved
here: the failed fetch of `"bad"` contributes no row while the sibling
`"good"` row is present, with exactly one fetch call per id), but the
normalization half fails on the code: `add_dataset` catches the
`KeyError` raised on `badDataset` (missing `title_translated`) and then
still executes the append, which sits outside the `try` — so a partial
row carrying only the `id` is appended (compare `add_resource`, whose
`except` correctly `return`s and drops the record). -/
theorem add_dataset_appends_partial_row_on_failure :
    (buildRecord badDataset).2 = some PyErr.keyError
    ∧ addDataset badDataset [] = [{ id := some "d1" }]
    ∧ (inventoryRun harvestWorld false (some ["bad", "good"]) ⟨[], []⟩).1.datasets.map
        (fun r => r.id) = [some "good"]
    ∧ (inventoryRun harvestWorld false (some ["bad", "good"]) ⟨[], []⟩).2
        = [NetCall.fetchDataset "bad", NetCall.fetchDataset "good"] := by
  decide

/-- C7 counterexample: calling `inventory` with an *empty* id list is
falsy for `if not datasets_ids:`, so the code falls back to
`search_datasets` and issues a search network call — the claim's "no
network calls" is violated (here the search returns no ids, so the two
tables do stay empty). -/
theorem inventory_empty_id_list_issues_search :
    (inventoryRun harvestWorld false (some []) ⟨[], []⟩).2 = [NetCall.search]
    ∧ (inventoryRun harvestWorld false (some []) ⟨[], []⟩).1 = ⟨[], []⟩ := by
  decide

/-- C7 (amended): with an empty id list, `inventory` issues exactly one
search request; when that search returns no ids, no fetch (or any
other) request is issued and both tables remain empty (and typed by
construction in the embedding; the final `astype` re-cast of the source
is the identity on them). -/
theorem inventory_empty_ids_amended (w : World) (hasDriver : Bool) :
    w.searchResult = [] →
    inventoryRun w hasDriver (some []) ⟨[], []⟩ = (⟨[], []⟩, [NetCall.search]) := by
  intro h
  simp [inventoryRun, h, sortByKey]

/-- C7 witness: the amended theorem evaluated at the concrete world. -/
theorem inventory_empty_ids_amended_witness :
    inventoryRun harvestWorld false (some []) ⟨[], []⟩ = (⟨[], []⟩, [NetCall.search]) :=
  inventory_empty_ids_amended harvestWorld false rfl

/-- C8: the claim says the driver lock is released on every execution
path.  On the successful path it is (second conjunct: the task ends
with the lock free), but when `dc.get_dataset(id)` raises, control
jumps from line 293 to the `except`, skipping the
`driver_lock.release()` of line 295 — the task completes (its tables
untouched, third conjunct) with the lock still held (first conjunct),
so later browser-backed tasks block forever on `acquire`. -/
theorem driver_lock_left_held_on_failed_fetch :
    (collectStep harvestWorld true "bad" ⟨[], []⟩ false).2.1 = true
    ∧ (collectStep harvestWorld true "good" ⟨[], []⟩ false).2.1 = false
    ∧ (collectStep harvestWorld true "bad" ⟨[], []⟩ false).1 = ⟨[], []⟩ := by
  decide

end OpenDataScanner
